import Mathlib

/-!
# Scribbler — shallow embedding and verification

A shallow embedding of the Scribbler drawing extension's core state model:

* `Scribbler.LM` — the `LayerManager` of the main variant (layers, active layer,
  undo/redo stacks) with its methods `saveStateToHistory`, `addLayer`,
  `removeLayer`, `clearLayers`, `undo`, `redo`, `getLayerAt`;
* `Scribbler.AppState` — the `TabManager`/`StorageManager` level: the tab
  registry, the active tab id and an abstract key-value store standing for
  `localStorage` (JSON (de)serialization round-trips, so serialized values are
  modelled by the values themselves);
* `Popup` — the `popup.js` variant: `KeyboardShortcutManager.saveState`,
  `ImageManager.handleMouseMove` resize arithmetic and the
  `ScribbleCanvas.draw` / `stopDrawing` stroke-routing machinery.

Numbers are modelled by `ℚ`: every arithmetic fact proved below involves only
values on which JavaScript float arithmetic is exact.  Deep equality via
`JSON.stringify` string comparison is modelled by structural (decidable)
equality: `stringify` is injective on the object shapes the program builds and
maps structurally equal values to equal strings.  DOM rendering calls are
state-irrelevant and are dropped; DOM-independent state changes are kept.
-/

namespace Scribbler

/-- Height of an image layer: the string `'auto'` or a number (after a resize
gesture the code stores `width / aspectRatio`). -/
inductive HeightV where
  | auto : HeightV
  | px : ℚ → HeightV
deriving DecidableEq, Repr

/-- A layer, as built by `addDrawingLayer` (fields `id`, `type`, `data`) and
`addImageLayer` (`id`, `type`, `data`, `x`, `y`, `width`, `height`). -/
inductive Layer where
  | drawing (id : String) (data : String)
  | image (id : String) (data : String) (x y width : ℚ) (height : HeightV)
deriving DecidableEq, Repr

/-- `layer.type === 'image'`. -/
def Layer.isImage : Layer → Bool
  | .drawing .. => false
  | .image .. => true

/-- In-memory state of a `LayerManager` instance. -/
structure LM where
  layers : List Layer := []
  activeLayer : Option Layer := none
  undoStack : List (List Layer) := []
  redoStack : List (List Layer) := []
deriving DecidableEq, Repr

/-- `LayerManager.saveStateToHistory`: push a deep copy of `layers` unless it
deep-equals the top of the undo stack (for an empty stack
`JSON.stringify(undefined)` is not a string, so the guard always pushes);
clear the redo stack; drop the oldest entry if the depth exceeds 50.
JS `push`/`pop` act on the list end, `shift` on the front. -/
def saveStateToHistory (s : LM) : LM :=
  if s.undoStack.getLast? = some s.layers then s
  else
    { s with
      undoStack :=
        if 50 < (s.undoStack ++ [s.layers]).length then (s.undoStack ++ [s.layers]).tail
        else s.undoStack ++ [s.layers]
      redoStack := [] }

/-- `LayerManager.addLayer` (the persistence write `saveState` lives at the
`AppState` level, the render call is state-irrelevant). -/
def addLayer (l : Layer) (s : LM) : LM :=
  let s1 := saveStateToHistory s
  { s1 with layers := s1.layers ++ [l] }

/-- `LayerManager.removeLayer`. -/
def removeLayer (lid : String) (s : LM) : LM :=
  let s1 := saveStateToHistory s
  { s1 with
    layers := s1.layers.filter (fun l => match l with
      | .drawing i _ => i ≠ lid
      | .image i _ _ _ _ _ => i ≠ lid)
    activeLayer := none }

/-- `LayerManager.clearLayers`. -/
def clearLayers (s : LM) : LM :=
  let s1 := saveStateToHistory s
  { s1 with layers := [], activeLayer := none }

/-- `LayerManager.undo`: if the undo stack is non-empty, push the current
layers onto the redo stack, pop the undo stack into `layers`, and clear the
active-layer selection. -/
def undo (s : LM) : LM :=
  match s.undoStack.getLast? with
  | none => s
  | some prev =>
    { s with
      redoStack := s.redoStack ++ [s.layers]
      undoStack := s.undoStack.dropLast
      layers := prev
      activeLayer := none }

/-- `LayerManager.redo`: symmetric to `undo`. -/
def redo (s : LM) : LM :=
  match s.redoStack.getLast? with
  | none => s
  | some next =>
    { s with
      undoStack := s.undoStack ++ [s.layers]
      redoStack := s.redoStack.dropLast
      layers := next
      activeLayer := none }

/-- `Renderer.getImageHeight`: `layer.width / (img.width / img.height)` where
`img` is the decoded image for `layer.data`.  The decode of a data URL into a
natural aspect ratio `img.width / img.height` is modelled by the environment
function `aspect : String → ℚ`. -/
def getImageHeight (aspect : String → ℚ) : Layer → ℚ
  | .drawing .. => 0
  | .image _ data _ _ width _ => width / aspect data

/-- The hit test of the `getLayerAt` loop body: the layer is an image layer and
`x >= layer.x && x <= layer.x + width && y >= layer.y && y <= layer.y + height`. -/
def hitPred (aspect : String → ℚ) (x y : ℚ) (l : Layer) : Bool :=
  match l with
  | .drawing .. => false
  | .image _ data lx ly w _ =>
    decide (lx ≤ x ∧ x ≤ lx + w ∧ ly ≤ y ∧ y ≤ ly + w / aspect data)

/-- The scan of `getLayerAt`'s `for` loop, which walks `layers` from the last
index down and stops at the first match: equivalently, the highest-index
element satisfying `p`, together with its index. -/
def hitFind (p : Layer → Bool) : List Layer → Option (Nat × Layer)
  | [] => none
  | l :: ls =>
    match hitFind p ls with
    | some (i, h) => some (i + 1, h)
    | none => if p l then some (0, l) else none

/-- `LayerManager.getLayerAt(x, y)`: returns the hit layer (or none) and the
updated manager state.  On a hit that differs from the active layer the code
runs `setActiveLayer(layer)`, `saveStateToHistory()`, and, when the layer is
not already on top, splices it out and pushes it to the end.  The JS reference
comparison `this.activeLayer !== layer` is modelled by structural equality
(layer ids are unique within a sheet, so distinct live layer objects are
structurally distinct). -/
def getLayerAt (aspect : String → ℚ) (x y : ℚ) (s : LM) : Option Layer × LM :=
  match hitFind (hitPred aspect x y) s.layers with
  | none => (none, { s with activeLayer := none })
  | some (i, l) =>
    if s.activeLayer = some l then (some l, s)
    else
      let s1 := saveStateToHistory { s with activeLayer := some l }
      let s2 :=
        if 1 < s1.layers.length ∧ i ≠ s1.layers.length - 1 then
          { s1 with layers := s1.layers.eraseIdx i ++ [l] }
        else s1
      (some l, s2)

/-! ## TabManager / StorageManager level -/

/-- A registry entry `{ id, title }` of `TabManager.tabList`. -/
structure Tab where
  id : String
  title : String
deriving DecidableEq, Repr

/-- A value held in `localStorage`.  `StorageManager` JSON-serializes on write
and parses on read, and that round-trip is the identity, so stored blobs are
modelled by the deserialized values themselves. -/
inductive StoreVal where
  | layersV (ls : List Layer)
  | tabsV (ts : List Tab)
  | strV (s : String)
deriving DecidableEq, Repr

/-- The abstract `localStorage`: a string-keyed partial map. -/
def Store : Type := String → Option StoreVal

/-- `localStorage.setItem`. -/
def Store.setKey (st : Store) (k : String) (v : StoreVal) : Store :=
  fun k' => if k' = k then some v else st k'

/-- `localStorage.removeItem`. -/
def Store.delKey (st : Store) (k : String) : Store :=
  fun k' => if k' = k then none else st k'

/-- The empty store. -/
def Store.empty : Store := fun _ => none

/-- The key `layersState_${tabId}` used by `LayerManager.saveState/loadState`. -/
def layersKey (tabId : String) : String := "layersState_" ++ tabId

/-- Whole-application state: the active `LayerManager`, `TabManager`'s static
fields, and the backing store. -/
structure AppState where
  lm : LM
  activeTabId : String
  tabList : List Tab
  store : Store

/-- `LayerManager.saveState`: persist the layer array under the active tab's
key. -/
def appSaveState (a : AppState) : AppState :=
  { a with store := a.store.setKey (layersKey a.activeTabId) (.layersV a.lm.layers) }

/-- `LayerManager.loadState`: read the active tab's layer array (empty when the
key is absent or the blob fails to parse as a layer array), clear the
selection, and reset the history stacks to a single snapshot of the loaded
layers and the empty stack. -/
def appLoadState (a : AppState) : AppState :=
  let ls : List Layer :=
    match a.store (layersKey a.activeTabId) with
    | some (.layersV ls) => ls
    | _ => []
  { a with lm := { layers := ls, activeLayer := none, undoStack := [ls], redoStack := [] } }

/-- `TabManager.saveTabsToStorage`. -/
def saveTabsToStorage (a : AppState) : AppState :=
  let st1 := a.store.setKey "scribbler_tabs" (.tabsV a.tabList)
  { a with store := st1.setKey "scribbler_activeTabId" (.strV a.activeTabId) }

/-- `TabManager.switchToTab(tabId)`: the guard `if (newActiveTab)` checks that
the tab's DOM element exists, which holds exactly for registered (rendered)
tabs, modelled as membership in `tabList`.  On success: set the active id,
`loadState`, and persist the registry. -/
def switchToTab (tabId : String) (a : AppState) : AppState :=
  if a.tabList.any (fun t => t.id = tabId) then
    saveTabsToStorage (appLoadState { a with activeTabId := tabId })
  else a

/-- `parseInt(s) || 0`: skip leading whitespace, an optional sign, then the
longest run of decimal digits; `NaN` (no digits) collapses to `0` through
`|| 0`. -/
def takeDigits : List Char → List Char
  | [] => []
  | c :: cs => if c.isDigit then c :: takeDigits cs else []

/-- Numeric value of a digit run. -/
def digitsToNat (ds : List Char) : Nat :=
  ds.foldl (fun n c => 10 * n + (c.toNat - 48)) 0

/-- `parseInt(s) || 0` over a string (decimal; `parseInt`'s hex `0x` prefix is
never produced by `Sheet N` titles). -/
def parseIntOr0 (s : String) : Int :=
  let cs := s.data.dropWhile (fun c => c = ' ' || c = '\t' || c = '\n' || c = '\r')
  match cs with
  | '-' :: rest =>
    let ds := takeDigits rest
    if ds = [] then 0 else -(digitsToNat ds : Int)
  | '+' :: rest =>
    let ds := takeDigits rest
    if ds = [] then 0 else (digitsToNat ds : Int)
  | _ =>
    let ds := takeDigits cs
    if ds = [] then 0 else (digitsToNat ds : Int)

/-- JS `String.prototype.replace` with a string pattern replaces the first
occurrence only; here the replacement is the empty string. -/
def dropFirstMatch (pat : List Char) : List Char → List Char
  | [] => []
  | c :: rest =>
    if List.isPrefixOf pat (c :: rest) then (c :: rest).drop pat.length
    else c :: dropFirstMatch pat rest

/-- `tab.title.replace('Sheet ', '')`. -/
def stripSheetTitle (s : String) : String :=
  ⟨dropFirstMatch "Sheet ".data s.data⟩

/-- The numeric suffix `parseInt(tab.title.replace('Sheet ', '')) || 0` of a
title. -/
def titleNum (t : Tab) : Int := parseIntOr0 (stripSheetTitle t.title)

/-- `TabManager.generateUniqueTabTitle`: `Sheet (1 + max numeric suffix)`,
the max (via `reduce` with seed `0`) ranging over the *current* tab list. -/
def generateUniqueTabTitle (tabs : List Tab) : String :=
  let highestNumber := tabs.foldl (fun mx t => max mx (titleNum t)) 0
  "Sheet " ++ toString (highestNumber + 1)

/-- `TabManager.addTab`: the fresh id `tab-${Date.now()}` is a parameter. -/
def addTab (newTabId : String) (a : AppState) : AppState :=
  let t : Tab := { id := newTabId, title := generateUniqueTabTitle a.tabList }
  switchToTab newTabId { a with tabList := a.tabList ++ [t] }

/-- `TabManager.removeTab(tabId)`: refuse (alert, no state change) when this is
the last tab — the returned flag records whether the warning fired.  Otherwise
drop the tab from the registry, delete its persisted layer state, and either
switch to the first remaining tab (if the removed tab was active) or just
persist the registry. -/
def removeTab (tabId : String) (a : AppState) : AppState × Bool :=
  if a.tabList.length = 1 then (a, true)
  else
    let a1 := { a with
      tabList := a.tabList.filter (fun t => t.id ≠ tabId)
      store := a.store.delKey (layersKey tabId) }
    if a.activeTabId = tabId then
      (switchToTab ((a1.tabList.headD { id := "", title := "" }).id) a1, false)
    else
      (saveTabsToStorage a1, false)

/-- `LayerManager.addLayer` as invoked in the app: mutate, then `saveState`. -/
def appAddLayer (l : Layer) (a : AppState) : AppState :=
  appSaveState { a with lm := addLayer l a.lm }

/-- `LayerManager.undo` as invoked in the app: `saveState` runs only when the
undo stack was non-empty. -/
def appUndo (a : AppState) : AppState :=
  if a.lm.undoStack = [] then a else appSaveState { a with lm := undo a.lm }

/-- One user-level `LayerManager` mutation, for stating properties of whole
call sequences. -/
inductive LOp where
  | add (l : Layer)
  | remove (lid : String)
  | clear
  | doUndo
  | doRedo

/-- Run one `LOp` on a `LayerManager`. -/
def applyLOp : LOp → LM → LM
  | .add l, s => addLayer l s
  | .remove lid, s => removeLayer lid s
  | .clear, s => clearLayers s
  | .doUndo, s => undo s
  | .doRedo, s => redo s

/-- The resize branch of `InteractionManager.handleMouseMove` (main variant).
`dragStart` was set on the resize mousedown to `{ x, y, width, height }` only,
so `this.dragStart.layerX`/`layerY`, read by the `bl`/`tr`/`tl` branches, are
`undefined` and `undefined + number` is `NaN`: the JS number assigned to the
layer is modelled by `Option ℚ` with `none` for `NaN`.  After the branches the
code recomputes `height = width / aspectRatio` from the intrinsic aspect. -/
structure IMResizeOut where
  x : Option ℚ
  y : Option ℚ
  width : ℚ
  height : ℚ
deriving DecidableEq, Repr

/-- `InteractionManager.handleMouseMove`, resize case: `handle` is the grabbed
corner, `startW`/`startH` the captured `dragStart.width/height`, `curX`/`curY`
the layer's current position, `dx`/`dy` the pointer delta, `aspect` the
intrinsic `img.width / img.height`. -/
def handleResizeIM (handle : String) (startW startH curX curY dx dy aspect : ℚ) :
    IMResizeOut :=
  let out : IMResizeOut :=
    if handle = "br" then
      { x := some curX, y := some curY, width := max 20 (startW + dx), height := 0 }
    else if handle = "bl" then
      let newWidth := max 20 (startW - dx)
      { x := none, y := some curY, width := newWidth, height := 0 }
    else if handle = "tr" then
      let newWidth := max 20 (startW + dx)
      let _newHeight := max 20 (startH - dy)
      { x := some curX, y := none, width := newWidth, height := 0 }
    else if handle = "tl" then
      let newWidth := max 20 (startW - dx)
      let _newHeight := max 20 (startH - dy)
      { x := none, y := none, width := newWidth, height := 0 }
    else
      { x := some curX, y := some curY, width := startW, height := 0 }
  { out with height := out.width / aspect }

end Scribbler

namespace Popup

/-- A polymorphic `KeyboardShortcutManager` stack pair; snapshots are canvas
`toDataURL()` blobs, modelled by the canvas content itself. -/
structure KSM (α : Type) where
  undoStack : List α := []
  redoStack : List α := []
deriving DecidableEq, Repr

/-- `KeyboardShortcutManager.saveState`: push the snapshot, drop the oldest
entry when the depth exceeds 50, clear the redo stack. -/
def ksmSaveState {α : Type} (snap : α) (k : KSM α) : KSM α :=
  let u := k.undoStack ++ [snap]
  { undoStack := if 50 < u.length then u.tail else u
    redoStack := [] }

/-- A point of a stroke path. -/
structure Pt where
  x : ℚ
  y : ℚ
deriving DecidableEq, Repr

/-- The content of a canvas, as the trace of path strokes inked onto it: each
`stroke()` call during a gesture draws the full accumulated point path. -/
abbrev Raster := List (List Pt)

/-- An image layer's overlay canvas (`ImageManager.imageCanvases` entry):
its pixel width (`canvas.width`) and its content. -/
structure OverlayCanvas where
  cw : ℚ
  content : Raster
deriving DecidableEq, Repr

/-- A value in `localStorage` for the popup variant. -/
inductive PVal where
  | rasterV (r : Raster)
  | imagesV (m : List (String × Option Raster))
deriving DecidableEq

/-- The popup variant's `localStorage`. -/
def PStore : Type := String → Option PVal

/-- `localStorage.setItem`. -/
def PStore.setKey (st : PStore) (k : String) (v : PVal) : PStore :=
  fun k' => if k' = k then some v else st k'

/-- The empty store. -/
def PStore.empty : PStore := fun _ => none

/-- Association-list read (JS `Map.get`). -/
def alGet {β : Type} (m : List (String × β)) (k : String) : Option β :=
  (m.find? (fun p => p.1 = k)).map Prod.snd

/-- Association-list write (JS `Map.set`). -/
def alSet {β : Type} (m : List (String × β)) (k : String) (v : β) :
    List (String × β) :=
  (k, v) :: m.filter (fun p => p.1 ≠ k)

/-- Geometry environment for a stroke gesture: per image id, the offset of the
image container relative to the canvas (`imageRect - canvasRect`) and the
rendered image size (`img.offsetWidth/offsetHeight`).  These are fixed for the
duration of a gesture (single-threaded event loop, no layout change between
the handlers of one stroke). -/
structure Env where
  imgLeft : String → ℚ
  imgTop : String → ℚ
  imgW : String → ℚ
  imgH : String → ℚ

/-- Combined `ScribbleCanvas` / `ImageManager` state relevant to stroke
routing. -/
structure PState where
  activeTool : String
  drawing : Bool
  points : List Pt
  base : Raster
  currentImage : Option String
  imageCanvases : List (String × OverlayCanvas)
  imageDrawings : List (String × Option Raster)
  ksm : KSM Raster
  activeTabId : String
  store : PStore

/-- `ScribbleCanvas.startDrawing`: brush-only; records the first point,
translated into the selected image's local coordinates when an image is
selected; pushes an undo snapshot of the main canvas. -/
def startDrawing (e : Env) (x y : ℚ) (s : PState) : PState :=
  if s.activeTool ≠ "brush" then s
  else
    let p : Pt :=
      match s.currentImage with
      | some id => { x := x - e.imgLeft id, y := y - e.imgTop id }
      | none => { x := x, y := y }
    { s with drawing := true, points := [p], ksm := ksmSaveState s.base s.ksm }

/-- `ScribbleCanvas.draw`: route the sample to the selected image's overlay
canvas (when one is selected and has a canvas) or to the main canvas;
re-initialize the overlay canvas from the persisted drawing when its pixel
width disagrees with the rendered image width (the `onload` continuation of
`loadDrawingToCanvas` is modelled synchronously); append the sample and, once
two samples exist, ink the full accumulated path onto the target. -/
def draw (e : Env) (x y : ℚ) (s : PState) : PState :=
  if ¬s.drawing ∨ s.activeTool ≠ "brush" then s
  else
    match s.currentImage with
    | some id =>
      match alGet s.imageCanvases id with
      | some ov =>
        let p : Pt := { x := x - e.imgLeft id, y := y - e.imgTop id }
        let ov1 :=
          if ov.cw ≠ e.imgW id then
            { cw := e.imgW id
              content :=
                match alGet s.imageDrawings id with
                | some (some r) => r
                | _ => [] }
          else ov
        let pts := s.points ++ [p]
        let ov2 :=
          if 2 ≤ pts.length then { ov1 with content := ov1.content ++ [pts] } else ov1
        { s with points := pts, imageCanvases := alSet s.imageCanvases id ov2 }
      | none =>
        let pts := s.points ++ [Pt.mk x y]
        { s with points := pts
                 base := if 2 ≤ pts.length then s.base ++ [pts] else s.base }
    | none =>
      let pts := s.points ++ [Pt.mk x y]
      { s with points := pts
               base := if 2 ≤ pts.length then s.base ++ [pts] else s.base }

/-- `ScribbleCanvas.stopDrawing`: commit the stroke — to the selected image's
drawing record and the persisted `imagesState` (the DOM-derived fields of that
record are orthogonal and omitted; its `drawingData` payload is kept) when an
image is selected, otherwise to the persisted base key
`canvasState_<activeTabId>`. -/
def stopDrawing (s : PState) : PState :=
  if ¬s.drawing then s
  else
    let s1 := { s with drawing := false, points := [] }
    match s1.currentImage with
    | some id =>
      match alGet s1.imageCanvases id with
      | some ov =>
        let drawings := alSet s1.imageDrawings id (some ov.content)
        { s1 with
          imageDrawings := drawings
          store := s1.store.setKey ("imagesState_" ++ s1.activeTabId) (.imagesV drawings) }
      | none => s1
    | none =>
      { s1 with
        store := s1.store.setKey ("canvasState_" ++ s1.activeTabId) (.rasterV s1.base) }

/-- Pointer coordinates translated into an image's local space
(`x - (imageRect.left - canvasRect.left)`, same for `y`). -/
def adjPt (e : Env) (id : String) (m : Pt) : Pt :=
  Pt.mk (m.x - e.imgLeft id) (m.y - e.imgTop id)

/-- The overlay-canvas re-initialization of `draw`: when the canvas pixel
width disagrees with the rendered image width, the canvas is resized (which
clears it) and the persisted drawing is reloaded onto it. -/
def reinitOv (e : Env) (id : String) (s : PState) (ov : OverlayCanvas) :
    OverlayCanvas :=
  if ov.cw ≠ e.imgW id then
    { cw := e.imgW id
      content :=
        match alGet s.imageDrawings id with
        | some (some r) => r
        | _ => [] }
  else ov

/-- A full stroke gesture: pointer-down at `p`, a sequence of pointer-move
samples, pointer-up. -/
def strokeSession (e : Env) (p : Pt) (moves : List Pt) (s : PState) : PState :=
  stopDrawing (moves.foldl (fun st m => draw e m.x m.y st) (startDrawing e p.x p.y s))

/-- The resize branch of `ImageManager.handleMouseMove` (popup variant):
given the grabbed handle, the captured initial geometry and the pointer delta,
produce `(width, height, left, top)`.  `aspectRatio` is locked from the
initial geometry (`dy` is computed by the source handler but unused by the
resize branches). -/
def handleResizeMove (handle : String) (initW initH initL initT dx _dy : ℚ) :
    ℚ × ℚ × ℚ × ℚ :=
  let aspectRatio := initW / initH
  if handle = "br" then
    let newWidth := max 50 (initW + dx)
    (newWidth, newWidth / aspectRatio, initL, initT)
  else if handle = "bl" then
    let newWidth := max 50 (initW - dx)
    (newWidth, newWidth / aspectRatio, initL + initW - newWidth, initT)
  else if handle = "tr" then
    let newWidth := max 50 (initW + dx)
    let newHeight := newWidth / aspectRatio
    (newWidth, newHeight, initL, initT + initH - newHeight)
  else if handle = "tl" then
    let newWidth := max 50 (initW - dx)
    let newHeight := newWidth / aspectRatio
    (newWidth, newHeight, initL + initW - newWidth, initT + initH - newHeight)
  else
    (initW, initH, initL, initT)

end Popup

namespace Scribbler

/-! ## Basic facts about the history engine -/

theorem sSTH_layers (s : LM) : (saveStateToHistory s).layers = s.layers := by
  unfold saveStateToHistory; split <;> rfl

theorem sSTH_activeLayer (s : LM) :
    (saveStateToHistory s).activeLayer = s.activeLayer := by
  unfold saveStateToHistory; split <;> rfl

/-- After `saveStateToHistory`, the top of the undo stack is the (pre-call)
layer array — whether the push happened or was suppressed as a duplicate. -/
theorem sSTH_getLast (s : LM) :
    (saveStateToHistory s).undoStack.getLast? = some s.layers := by
  unfold saveStateToHistory
  split
  · next h => exact h
  · next h =>
    simp only
    split
    · next hlen =>
      cases hu : s.undoStack with
      | nil => simp [hu] at hlen
      | cons a t =>
        show (t ++ [s.layers]).getLast? = some s.layers
        exact List.getLast?_concat _
    · exact List.getLast?_concat _

theorem sSTH_redoStack_of_push (s : LM)
    (h : s.undoStack.getLast? ≠ some s.layers) :
    (saveStateToHistory s).redoStack = [] := by
  unfold saveStateToHistory
  rw [if_neg h]

theorem undo_of_getLast {s : LM} {prev : List Layer}
    (h : s.undoStack.getLast? = some prev) :
    undo s = { s with
      redoStack := s.redoStack ++ [s.layers]
      undoStack := s.undoStack.dropLast
      layers := prev
      activeLayer := none } := by
  unfold undo; rw [h]

theorem redo_of_getLast {s : LM} {next : List Layer}
    (h : s.redoStack.getLast? = some next) :
    redo s = { s with
      undoStack := s.undoStack ++ [s.layers]
      redoStack := s.redoStack.dropLast
      layers := next
      activeLayer := none } := by
  unfold redo; rw [h]

/-- C1. For every `LayerManager` state and every `addLayer` / `removeLayer` /
`clearLayers` mutation, one `undo()` restores exactly the layer array that
held before the mutation (this holds even in the snapshot-suppressed duplicate
case excepted by the claim, because suppression means the top of the undo
stack already equals the pre-mutation layers); and whenever `undo()` actually
fires (non-empty undo stack), a `redo()` performed immediately afterwards
restores the pre-undo layer array. -/
theorem c1_undo_reverses_redo_round_trip (s : LM) (l : Layer) (lid : String) :
    (undo (addLayer l s)).layers = s.layers
    ∧ (undo (removeLayer lid s)).layers = s.layers
    ∧ (undo (clearLayers s)).layers = s.layers
    ∧ (s.undoStack ≠ [] → (redo (undo s)).layers = s.layers) := by
  have hadd : (undo (addLayer l s)).layers = s.layers := by
    have h : (addLayer l s).undoStack.getLast? = some s.layers := by
      simpa [addLayer] using sSTH_getLast s
    rw [undo_of_getLast h]
  have hrem : (undo (removeLayer lid s)).layers = s.layers := by
    have h : (removeLayer lid s).undoStack.getLast? = some s.layers := by
      simpa [removeLayer] using sSTH_getLast s
    rw [undo_of_getLast h]
  have hclr : (undo (clearLayers s)).layers = s.layers := by
    have h : (clearLayers s).undoStack.getLast? = some s.layers := by
      simpa [clearLayers] using sSTH_getLast s
    rw [undo_of_getLast h]
  refine ⟨hadd, hrem, hclr, fun hne => ?_⟩
  obtain ⟨prev, hprev⟩ : ∃ prev, s.undoStack.getLast? = some prev := by
    cases hu : s.undoStack.getLast? with
    | none => exact absurd (List.getLast?_eq_none_iff.mp hu) hne
    | some prev => exact ⟨prev, rfl⟩
  rw [undo_of_getLast hprev]
  have hredo : (({ s with
      redoStack := s.redoStack ++ [s.layers]
      undoStack := s.undoStack.dropLast
      layers := prev
      activeLayer := none } : LM)).redoStack.getLast? = some s.layers :=
    List.getLast?_concat _
  rw [redo_of_getLast hredo]

/-- Witness for C1 at a concrete state. -/
theorem c1_witness :
    (LM.mk [] none [[Layer.drawing "a" "u"]] []).undoStack ≠ []
    ∧ (redo (undo (LM.mk [] none [[Layer.drawing "a" "u"]] []))).layers = [] := by
  refine ⟨by decide, ?_⟩
  exact (c1_undo_reverses_redo_round_trip
    (LM.mk [] none [[Layer.drawing "a" "u"]] [])
    (Layer.drawing "a" "u") "a").2.2.2 (by decide)

/-- C10. A `saveStateToHistory` call made while the current layer array
deep-equals the top of the undo stack is a complete no-op: the whole
`LayerManager` state — both stacks included — is unchanged, so the redo
stack is not cleared and redo remains possible. -/
theorem c10_duplicate_snapshot_noop (s : LM)
    (h : s.undoStack.getLast? = some s.layers) :
    saveStateToHistory s = s := by
  unfold saveStateToHistory; rw [if_pos h]

/-- Witness for C10 at a concrete state. -/
theorem c10_witness :
    saveStateToHistory
      { layers := [Layer.drawing "a" "u"], activeLayer := none,
        undoStack := [[Layer.drawing "a" "u"]],
        redoStack := [[]] }
    = { layers := [Layer.drawing "a" "u"], activeLayer := none,
        undoStack := [[Layer.drawing "a" "u"]],
        redoStack := [[]] } :=
  c10_duplicate_snapshot_noop _ (by decide)

/-- C5. Whenever a mutation's `saveStateToHistory` actually pushes a snapshot
(the current layers do not deep-equal the top of the undo stack — in
particular the first non-duplicate push after any `undo()`), the redo stack is
empty immediately after the `addLayer`-class call. -/
theorem c5_new_snapshot_clears_redo (s : LM) (l : Layer) (lid : String)
    (h : s.undoStack.getLast? ≠ some s.layers) :
    (addLayer l s).redoStack = []
    ∧ (removeLayer lid s).redoStack = []
    ∧ (clearLayers s).redoStack = [] := by
  refine ⟨?_, ?_, ?_⟩ <;>
    simpa [addLayer, removeLayer, clearLayers] using sSTH_redoStack_of_push s h

/-- Witness for C5: a state reached right after an `undo()` (non-empty redo
stack), where the next `addLayer` pushes a fresh snapshot and empties it. -/
theorem c5_witness :
    (({ layers := [], activeLayer := none, undoStack := [],
        redoStack := [[Layer.drawing "a" "u"]] } : LM).undoStack.getLast?
      ≠ some ([] : List Layer))
    ∧ (addLayer (Layer.drawing "b" "v")
        { layers := [], activeLayer := none, undoStack := [],
          redoStack := [[Layer.drawing "a" "u"]] }).redoStack = [] := by
  refine ⟨by decide, ?_⟩
  exact (c5_new_snapshot_clears_redo
    { layers := [], activeLayer := none, undoStack := [],
      redoStack := [[Layer.drawing "a" "u"]] }
    (Layer.drawing "b" "v") "a" (by decide)).1

/-! ## C4: bounded history depth with FIFO eviction -/

/-- The combined stack size `|undoStack| + |redoStack|` is preserved or
shrunk to at most 50 by `saveStateToHistory`. -/
theorem sSTH_size (s : LM)
    (h : s.undoStack.length + s.redoStack.length ≤ 50) :
    (saveStateToHistory s).undoStack.length
      + (saveStateToHistory s).redoStack.length ≤ 50 := by
  unfold saveStateToHistory
  split
  · exact h
  · split <;>
      · simp only [List.length_tail, List.length_append, List.length_singleton,
          List.length_nil] at *
        omega

/-- Every `LayerManager` operation preserves `|undoStack| + |redoStack| ≤ 50`. -/
theorem applyLOp_size (op : LOp) (s : LM)
    (h : s.undoStack.length + s.redoStack.length ≤ 50) :
    (applyLOp op s).undoStack.length + (applyLOp op s).redoStack.length ≤ 50 := by
  cases op with
  | add l => simpa [applyLOp, addLayer] using sSTH_size s h
  | remove lid => simpa [applyLOp, removeLayer] using sSTH_size s h
  | clear => simpa [applyLOp, clearLayers] using sSTH_size s h
  | doUndo =>
    show (undo s).undoStack.length + (undo s).redoStack.length ≤ 50
    unfold undo
    cases hu : s.undoStack.getLast? with
    | none => exact h
    | some prev =>
      have hne : s.undoStack ≠ [] := by
        intro h0; rw [h0] at hu; simp at hu
      simp only [List.length_dropLast, List.length_append, List.length_cons,
        List.length_nil]
      have : 1 ≤ s.undoStack.length := List.length_pos.mpr hne
      omega
  | doRedo =>
    show (redo s).undoStack.length + (redo s).redoStack.length ≤ 50
    unfold redo
    cases hu : s.redoStack.getLast? with
    | none => exact h
    | some next =>
      have hne : s.redoStack ≠ [] := by
        intro h0; rw [h0] at hu; simp at hu
      simp only [List.length_dropLast, List.length_append, List.length_cons,
        List.length_nil]
      have : 1 ≤ s.redoStack.length := List.length_pos.mpr hne
      omega

theorem foldl_applyLOp_size (ops : List LOp) (s : LM)
    (h : s.undoStack.length + s.redoStack.length ≤ 50) :
    (ops.foldl (fun st op => applyLOp op st) s).undoStack.length
      + (ops.foldl (fun st op => applyLOp op st) s).redoStack.length ≤ 50 := by
  induction ops generalizing s with
  | nil => exact h
  | cons op ops ih => exact ih (applyLOp op s) (applyLOp_size op s h)

theorem ksmSaveState_le {α : Type} (snap : α) (k : Popup.KSM α)
    (h : k.undoStack.length ≤ 50) :
    (Popup.ksmSaveState snap k).undoStack.length ≤ 50 := by
  unfold Popup.ksmSaveState
  simp only
  split <;>
    · simp only [List.length_tail, List.length_append, List.length_singleton,
        List.length_nil] at *
      omega

/-- C4. Over every sequence of `LayerManager` operations starting from a state
whose stacks hold at most 50 entries in total, the undo stack never exceeds 50
entries; a push onto a full (50-entry) stack evicts the oldest entry (the list
front — FIFO) and keeps the most recent 50; and the popup variant's
`KeyboardShortcutManager.saveState` keeps its undo stack at 50 or fewer over
every sequence of snapshot pushes. -/
theorem c4_history_bounded (ops : List LOp) (s : LM)
    (h : s.undoStack.length + s.redoStack.length ≤ 50) :
    (ops.foldl (fun st op => applyLOp op st) s).undoStack.length ≤ 50
    ∧ (∀ st : LM, st.undoStack.length = 50 →
        st.undoStack.getLast? ≠ some st.layers →
        (saveStateToHistory st).undoStack = st.undoStack.tail ++ [st.layers]
        ∧ (saveStateToHistory st).undoStack.length = 50)
    ∧ (∀ (snaps : List String) (k : Popup.KSM String), k.undoStack.length ≤ 50 →
        (snaps.foldl (fun st sn => Popup.ksmSaveState sn st) k).undoStack.length
          ≤ 50) := by
  refine ⟨?_, ?_, ?_⟩
  · have := foldl_applyLOp_size ops s h
    omega
  · intro st h50 hdup
    have hfull : 50 < (st.undoStack ++ [st.layers]).length := by
      simp [List.length_append, h50]
    constructor
    · unfold saveStateToHistory
      rw [if_neg hdup, if_pos hfull]
      cases hud : st.undoStack with
      | nil => rw [hud] at h50; simp at h50
      | cons a t => rfl
    · unfold saveStateToHistory
      rw [if_neg hdup, if_pos hfull]
      simp only [List.length_tail, List.length_append, List.length_singleton, h50]
  · intro snaps
    induction snaps with
    | nil => intro k hk; exact hk
    | cons sn snaps ih =>
      intro k hk
      exact ih (Popup.ksmSaveState sn k) (ksmSaveState_le sn k hk)

/-- Witness for C4: a one-push sequence from the empty manager, and the FIFO
shape of a push onto a concrete full 50-entry stack. -/
theorem c4_witness :
    ([LOp.add (Layer.drawing "a" "u")].foldl (fun st op => applyLOp op st)
      (LM.mk [] none [] [])).undoStack.length ≤ 50
    ∧ (saveStateToHistory
        (LM.mk [Layer.drawing "a" "u"] none (List.replicate 50 []) [])).undoStack
      = (List.replicate 50 ([] : List Layer)).tail ++ [[Layer.drawing "a" "u"]] := by
  refine ⟨(c4_history_bounded [LOp.add (Layer.drawing "a" "u")]
    (LM.mk [] none [] []) (by decide)).1, ?_⟩
  exact ((c4_history_bounded [] (LM.mk [] none [] []) (by decide)).2.1
    (LM.mk [Layer.drawing "a" "u"] none (List.replicate 50 []) [])
    (by decide) (by decide)).1

/-! ## C9: hit testing -/

/-- The downward `for` loop of `getLayerAt` computes the first match of the
reversed layer list (the topmost matching layer). -/
theorem hitFind_map_snd (p : Layer → Bool) (ls : List Layer) :
    (hitFind p ls).map Prod.snd = ls.reverse.find? p := by
  induction ls with
  | nil => rfl
  | cons l ls ih =>
    simp only [hitFind, List.reverse_cons, List.find?_append]
    cases hf : hitFind p ls with
    | none =>
      rw [hf] at ih
      rw [← ih]
      simp only [Option.map_none, Option.none_or]
      split
      · next hp => simp [List.find?, hp]
      · next hp =>
        simp only [Bool.not_eq_true] at hp
        simp [List.find?, hp]
    | some il =>
      obtain ⟨i, hit⟩ := il
      rw [hf] at ih
      rw [← ih]
      rfl

/-- A `hitFind` result is an element of the list at the returned index, and it
satisfies the predicate. -/
theorem hitFind_get (p : Layer → Bool) (ls : List Layer) (i : Nat) (l : Layer)
    (h : hitFind p ls = some (i, l)) : ls.get? i = some l ∧ p l = true := by
  induction ls generalizing i with
  | nil => simp [hitFind] at h
  | cons a ls ih =>
    rw [hitFind] at h
    cases hf : hitFind p ls with
    | some jl =>
      obtain ⟨j, b⟩ := jl
      rw [hf] at h
      simp only [Option.some.injEq, Prod.mk.injEq] at h
      obtain ⟨hi, hb⟩ := h
      subst hb
      subst hi
      exact ih j hf
    | none =>
      rw [hf] at h
      by_cases hp : p a
      · rw [if_pos hp] at h
        simp only [Option.some.injEq, Prod.mk.injEq] at h
        obtain ⟨hi, hl⟩ := h
        subst hl
        subst hi
        exact ⟨rfl, hp⟩
      · rw [if_neg hp] at h
        cases h

/-- Moving the element at index `i` to the end is a permutation. -/
theorem eraseIdx_concat_perm {α : Type} (ls : List α) (i : Nat) (l : α)
    (h : ls.get? i = some l) : (ls.eraseIdx i ++ [l]).Perm ls := by
  induction ls generalizing i with
  | nil => simp at h
  | cons a ls ih =>
    cases i with
    | zero =>
      simp only [List.get?] at h
      injection h with h
      subst h
      exact List.perm_append_singleton a ls
    | succ j =>
      show (a :: (ls.eraseIdx j ++ [l])).Perm (a :: ls)
      exact List.Perm.cons a (ih j h)

/-- An element sitting at the last position is the `getLast?`. -/
theorem getLast?_of_get_last {α : Type} (ls : List α) (i : Nat) (l : α)
    (h : ls.get? i = some l) (hi : i = ls.length - 1) :
    ls.getLast? = some l := by
  subst hi
  rw [List.getLast?_eq_getElem?, ← List.get?_eq_getElem?]
  exact h

/-- C9. `getLayerAt (x, y)` returns exactly the topmost layer (first match of
the reversed layer array) that is an image layer whose bounds contain the
point — never a drawing layer; and when that layer was not already the active
layer, the updated state has it promoted to the end of a permutation of the
old layer array (top z-order), selected as active, with the pre-reorder layer
array sitting on top of the undo stack as the history snapshot for the
reordering. -/
theorem c9_hit_topmost (aspect : String → ℚ) (x y : ℚ) (s : LM) :
    (getLayerAt aspect x y s).1 = s.layers.reverse.find? (hitPred aspect x y)
    ∧ (∀ l, (getLayerAt aspect x y s).1 = some l → l.isImage = true)
    ∧ (∀ l, (getLayerAt aspect x y s).1 = some l → s.activeLayer ≠ some l →
        ((getLayerAt aspect x y s).2.layers.Perm s.layers
          ∧ (getLayerAt aspect x y s).2.layers.getLast? = some l
          ∧ (getLayerAt aspect x y s).2.undoStack.getLast? = some s.layers
          ∧ (getLayerAt aspect x y s).2.activeLayer = some l)) := by
  cases hf : hitFind (hitPred aspect x y) s.layers with
  | none =>
    have hfst : (getLayerAt aspect x y s).1 = none := by
      unfold getLayerAt; rw [hf]
    refine ⟨?_, ?_, ?_⟩
    · rw [hfst, ← hitFind_map_snd, hf]; rfl
    · intro l hl; rw [hfst] at hl; cases hl
    · intro l hl; rw [hfst] at hl; cases hl
  | some il =>
    obtain ⟨i, l⟩ := il
    obtain ⟨hget, hpred⟩ := hitFind_get _ _ _ _ hf
    have hlt : i < s.layers.length := by
      rcases Nat.lt_or_ge i s.layers.length with hlt | hge
      · exact hlt
      · rw [List.get?_eq_none.mpr hge] at hget; cases hget
    have hfst : (getLayerAt aspect x y s).1 = some l := by
      unfold getLayerAt
      rw [hf]
      show (if s.activeLayer = some l then (some l, s) else _).1 = some l
      split <;> rfl
    refine ⟨?_, ?_, ?_⟩
    · rw [hfst, ← hitFind_map_snd, hf]; rfl
    · intro l' hl'
      rw [hfst] at hl'
      injection hl' with hl'
      subst hl'
      cases l with
      | drawing id data => simp [hitPred] at hpred
      | image id data lx ly w hgt => rfl
    · intro l' hl' hact
      rw [hfst] at hl'
      injection hl' with hl'
      subst hl'
      have hsnd : (getLayerAt aspect x y s).2 =
          (if 1 < s.layers.length ∧ i ≠ s.layers.length - 1 then
            { saveStateToHistory { s with activeLayer := some l } with
              layers := s.layers.eraseIdx i ++ [l] }
          else saveStateToHistory { s with activeLayer := some l }) := by
        unfold getLayerAt
        rw [hf]
        show (if s.activeLayer = some l then (some l, s) else _).2 = _
        rw [if_neg hact]
        show (if 1 < (saveStateToHistory
              { s with activeLayer := some l }).layers.length
            ∧ i ≠ (saveStateToHistory
              { s with activeLayer := some l }).layers.length - 1 then _ else _) = _
        rw [sSTH_layers]
      have hund : (saveStateToHistory
          { s with activeLayer := some l }).undoStack.getLast? =
            some ({ s with activeLayer := some l } : LM).layers :=
        sSTH_getLast _
      have hactv : (saveStateToHistory
          { s with activeLayer := some l }).activeLayer = some l :=
        sSTH_activeLayer _
      rw [hsnd]
      split
      · next hcond =>
        exact ⟨eraseIdx_concat_perm s.layers i l hget,
          List.getLast?_concat _, hund, hactv⟩
      · next hcond =>
        rw [sSTH_layers]
        refine ⟨List.Perm.refl _, ?_, hund, hactv⟩
        rcases not_and_or.mp hcond with hle | hii
        · have hle' : s.layers.length ≤ 1 := Nat.le_of_not_lt hle
          exact getLast?_of_get_last s.layers i l hget (by omega)
        · exact getLast?_of_get_last s.layers i l hget (Decidable.not_not.mp hii)

/-- Witness for C9: two overlapping 100×100 image layers, hit at (50, 50);
the topmost (second) layer is returned and promoted to active. -/
theorem c9_witness :
    (getLayerAt (fun _ => 1) 50 50
      (LM.mk [Layer.image "i1" "d1" 0 0 100 HeightV.auto,
              Layer.image "i2" "d2" 10 10 100 HeightV.auto] none [] [])).2.activeLayer
      = some (Layer.image "i2" "d2" 10 10 100 HeightV.auto) :=
  ((c9_hit_topmost (fun _ => 1) 50 50
    (LM.mk [Layer.image "i1" "d1" 0 0 100 HeightV.auto,
            Layer.image "i2" "d2" 10 10 100 HeightV.auto] none [] [])).2.2
    (Layer.image "i2" "d2" 10 10 100 HeightV.auto)
    (by norm_num [getLayerAt, hitFind, hitPred]; simp)
    (by decide)).2.2.2

end Scribbler

namespace Scribbler

/-! ## C2: per-sheet persistence and sheet switching -/

/-- C2 (amended). Switching to a registered sheet makes it active and restores
its layer array from exactly the key `layersState_<sheetId>` (empty when
absent); no key other than the two registry keys is written, so no layer state
leaks between sheets; and a `saveState` write touches only the active sheet's
own key.  However the undo and redo stacks are not persisted: the switch
resets them to a single snapshot of the loaded layers and to the empty stack
respectively. -/
theorem c2_switch_restores_layers_resets_history (a : AppState) (t : String)
    (h : a.tabList.any (fun tb => tb.id = t) = true) :
    (switchToTab t a).activeTabId = t
    ∧ (switchToTab t a).lm.layers =
        (match a.store (layersKey t) with
          | some (.layersV ls) => ls
          | _ => [])
    ∧ (switchToTab t a).lm.undoStack = [(switchToTab t a).lm.layers]
    ∧ (switchToTab t a).lm.redoStack = []
    ∧ (switchToTab t a).lm.activeLayer = none
    ∧ (∀ k, k ≠ "scribbler_tabs" → k ≠ "scribbler_activeTabId" →
        (switchToTab t a).store k = a.store k)
    ∧ (∀ (b : AppState) (k : String), k ≠ layersKey b.activeTabId →
        (appSaveState b).store k = b.store k) := by
  unfold switchToTab
  rw [if_pos h]
  refine ⟨rfl, rfl, rfl, rfl, rfl, ?_, ?_⟩
  · intro k h1 h2
    simp only [saveTabsToStorage, appLoadState, Store.setKey]
    rw [if_neg h2, if_neg h1]
  · intro b k hk
    simp only [appSaveState, Store.setKey]
    rw [if_neg hk]

/-- Witness for C2's amended theorem at a concrete two-sheet registry. -/
theorem c2_witness :
    (switchToTab "tab-B"
      (AppState.mk (LM.mk [] none [] []) "tab-A"
        [Tab.mk "tab-A" "Sheet 1", Tab.mk "tab-B" "Sheet 2"]
        Store.empty)).activeTabId = "tab-B" :=
  (c2_switch_restores_layers_resets_history
    (AppState.mk (LM.mk [] none [] []) "tab-A"
      [Tab.mk "tab-A" "Sheet 1", Tab.mk "tab-B" "Sheet 2"]
      Store.empty) "tab-B" (by decide)).1

/-- Counterexample for C2 as stated: the history stacks are *not* persisted
under sheet-derived keys and are *not* restored by switching away and back.
Concretely: on sheet `tab-A`, add a layer, then undo it — the redo stack now
holds one entry.  Switch to `tab-B` and back to `tab-A`: the redo stack comes
back empty (and the undo stack is reset to a single snapshot), so a redo that
was possible before the switch is impossible after it. -/
theorem c2_counterexample :
    (appUndo (appAddLayer (Layer.drawing "d1" "u")
        (AppState.mk (LM.mk [] none [] []) "tab-A"
          [Tab.mk "tab-A" "Sheet 1", Tab.mk "tab-B" "Sheet 2"]
          Store.empty))).lm.redoStack = [[Layer.drawing "d1" "u"]]
    ∧ (switchToTab "tab-A" (switchToTab "tab-B"
        (appUndo (appAddLayer (Layer.drawing "d1" "u")
          (AppState.mk (LM.mk [] none [] []) "tab-A"
            [Tab.mk "tab-A" "Sheet 1", Tab.mk "tab-B" "Sheet 2"]
            Store.empty))))).lm.redoStack = []
    ∧ (switchToTab "tab-A" (switchToTab "tab-B"
        (appUndo (appAddLayer (Layer.drawing "d1" "u")
          (AppState.mk (LM.mk [] none [] []) "tab-A"
            [Tab.mk "tab-A" "Sheet 1", Tab.mk "tab-B" "Sheet 2"]
            Store.empty))))).lm.undoStack
      ≠ (appUndo (appAddLayer (Layer.drawing "d1" "u")
          (AppState.mk (LM.mk [] none [] []) "tab-A"
            [Tab.mk "tab-A" "Sheet 1", Tab.mk "tab-B" "Sheet 2"]
            Store.empty))).lm.undoStack := by
  refine ⟨?_, ?_, ?_⟩ <;> decide

/-! ## C3: tab title numbering -/

theorem seed_le_foldl_max (f : Tab → Int) (l : List Tab) (a : Int) :
    a ≤ l.foldl (fun mx t => max mx (f t)) a := by
  induction l generalizing a with
  | nil => exact le_refl a
  | cons t l ih => exact le_trans (le_max_left a (f t)) (ih (max a (f t)))

theorem mem_le_foldl_max (f : Tab → Int) (l : List Tab) (t : Tab)
    (h : t ∈ l) (a : Int) :
    f t ≤ l.foldl (fun mx u => max mx (f u)) a := by
  induction l generalizing a with
  | nil => cases h
  | cons u l ih =>
    rcases List.mem_cons.mp h with h1 | h2
    · subst h1
      exact le_trans (le_max_right a (f t)) (seed_le_foldl_max f l (max a (f t)))
    · exact ih h2 (max a (f u))

/-- C3 (amended). `generateUniqueTabTitle` returns
`"Sheet " ++ (1 + the maximum numeric suffix parsed from the current titles)`,
a suffix strictly greater than every suffix currently present — so it never
collides with an existing tab's suffix; but it ranges only over the *current*
registry, so a number freed by deleting the highest-numbered tab is reused by
the next `addTab` (see the counterexample). -/
theorem c3_title_suffix_above_current (tabs : List Tab) (t : Tab)
    (h : t ∈ tabs) :
    titleNum t < tabs.foldl (fun mx u => max mx (titleNum u)) 0 + 1
    ∧ generateUniqueTabTitle tabs
      = "Sheet " ++ toString (tabs.foldl (fun mx u => max mx (titleNum u)) 0 + 1) := by
  refine ⟨?_, rfl⟩
  have := mem_le_foldl_max titleNum tabs t h 0
  omega

/-- Witness for C3's amended theorem. -/
theorem c3_witness :
    titleNum (Tab.mk "tab-1" "Sheet 1")
      < [Tab.mk "tab-1" "Sheet 1"].foldl (fun mx u => max mx (titleNum u)) 0 + 1 :=
  (c3_title_suffix_above_current [Tab.mk "tab-1" "Sheet 1"]
    (Tab.mk "tab-1" "Sheet 1") (by decide)).1

/-- Counterexample for C3 as stated: with sheets `Sheet 1` and `Sheet 2`,
deleting the highest-numbered tab (`Sheet 2`) and generating the next title
yields `Sheet 2` again — the numeric suffix of a previously created (deleted)
tab *is* reused. -/
theorem c3_counterexample :
    (removeTab "tab-2"
      (AppState.mk (LM.mk [] none [] []) "tab-1"
        [Tab.mk "tab-1" "Sheet 1", Tab.mk "tab-2" "Sheet 2"]
        Store.empty)).1.tabList = [Tab.mk "tab-1" "Sheet 1"]
    ∧ generateUniqueTabTitle
        (removeTab "tab-2"
          (AppState.mk (LM.mk [] none [] []) "tab-1"
            [Tab.mk "tab-1" "Sheet 1", Tab.mk "tab-2" "Sheet 2"]
            Store.empty)).1.tabList = "Sheet 2" := by
  refine ⟨?_, ?_⟩ <;> decide

/-! ## C6: the last sheet cannot be deleted -/

/-- C6. When the registry holds exactly one sheet, `removeTab` fires the
user-facing warning and is otherwise a complete no-op: the tab list, the
active sheet id and the whole persisted store are unchanged. -/
theorem c6_last_sheet_delete_rejected (a : AppState) (tid : String)
    (h : a.tabList.length = 1) :
    removeTab tid a = (a, true) := by
  unfold removeTab
  rw [if_pos h]

/-- Witness for C6 at a concrete single-sheet registry. -/
theorem c6_witness :
    removeTab "tab-1"
      (AppState.mk (LM.mk [] none [] []) "tab-1" [Tab.mk "tab-1" "Sheet 1"]
        Store.empty)
    = (AppState.mk (LM.mk [] none [] []) "tab-1" [Tab.mk "tab-1" "Sheet 1"]
        Store.empty, true) :=
  c6_last_sheet_delete_rejected
    (AppState.mk (LM.mk [] none [] []) "tab-1" [Tab.mk "tab-1" "Sheet 1"]
      Store.empty) "tab-1" (by decide)

end Scribbler

namespace Scribbler

/-! ## C7: resize geometry -/

/-- C7. The popup variant (`ImageManager.handleMouseMove`) implements the
claimed resize semantics exactly: on a 100×100 layer, `br` with `dx=30,dy=0`
gives 130×130 with the position unchanged, and `tl` with `dx=-20,dy=-20` gives
120×120 with `left` and `top` each decreased by 20; its width floor is 50, and
the main variant's (`InteractionManager.handleMouseMove`) width floor is 20 —
for every handle and every pointer delta.  The main variant's `br` case also
matches the claim; but its `tl` case sets the layer's `x` and `y` to `NaN`
(modelled `none`), because `dragStart.layerX`/`layerY` are read without ever
being set in resize mode — the code slip behind the code_bug verdict. -/
theorem c7_resize_geometry :
    Popup.handleResizeMove "br" 100 100 7 9 30 0 = (130, 130, 7, 9)
    ∧ Popup.handleResizeMove "tl" 100 100 7 9 (-20) (-20) = (120, 120, -13, -11)
    ∧ handleResizeIM "br" 100 100 7 9 30 0 1
        = { x := some 7, y := some 9, width := 130, height := 130 }
    ∧ handleResizeIM "tl" 100 100 7 9 (-20) (-20) 1
        = { x := none, y := none, width := 120, height := 120 }
    ∧ (∀ (handle : String) (initW initH initL initT dx dy : ℚ),
        handle = "tl" ∨ handle = "tr" ∨ handle = "bl" ∨ handle = "br" →
        50 ≤ (Popup.handleResizeMove handle initW initH initL initT dx dy).1)
    ∧ (∀ (handle : String) (startW startH curX curY dx dy aspect : ℚ),
        handle = "tl" ∨ handle = "tr" ∨ handle = "bl" ∨ handle = "br" →
        20 ≤ (handleResizeIM handle startW startH curX curY dx dy aspect).width) := by
  refine ⟨?_, ?_, ?_, ?_, ?_, ?_⟩
  · norm_num [Popup.handleResizeMove]
  · norm_num [Popup.handleResizeMove,
      show ("tl" : String) ≠ "br" from by decide,
      show ("tl" : String) ≠ "bl" from by decide,
      show ("tl" : String) ≠ "tr" from by decide]
  · norm_num [handleResizeIM]
  · norm_num [handleResizeIM,
      show ("tl" : String) ≠ "br" from by decide,
      show ("tl" : String) ≠ "bl" from by decide,
      show ("tl" : String) ≠ "tr" from by decide]
  · rintro handle initW initH initL initT dx dy (rfl | rfl | rfl | rfl) <;>
      simp only [Popup.handleResizeMove,
        show ("tl" : String) ≠ "br" from by decide,
        show ("tl" : String) ≠ "bl" from by decide,
        show ("tr" : String) ≠ "br" from by decide,
        show ("tr" : String) ≠ "bl" from by decide,
        show ("bl" : String) ≠ "br" from by decide,
        if_pos, if_neg, ite_true, ite_false, reduceIte] <;>
      exact le_max_left _ _
  · rintro handle startW startH curX curY dx dy aspect (rfl | rfl | rfl | rfl) <;>
      simp only [handleResizeIM,
        show ("tl" : String) ≠ "br" from by decide,
        show ("tl" : String) ≠ "bl" from by decide,
        show ("tr" : String) ≠ "br" from by decide,
        show ("tr" : String) ≠ "bl" from by decide,
        show ("bl" : String) ≠ "br" from by decide,
        if_pos, if_neg, ite_true, ite_false, reduceIte] <;>
      exact le_max_left _ _

/-- Witness for C7: the width floors at the `br` handle. -/
theorem c7_witness :
    50 ≤ (Popup.handleResizeMove "br" 100 100 7 9 (-200) 0).1
    ∧ 20 ≤ (handleResizeIM "br" 100 100 7 9 (-200) 0 1).width :=
  ⟨(c7_resize_geometry.2.2.2.2.1 "br" 100 100 7 9 (-200) 0
      (Or.inr (Or.inr (Or.inr rfl)))),
   (c7_resize_geometry.2.2.2.2.2 "br" 100 100 7 9 (-200) 0 1
      (Or.inr (Or.inr (Or.inr rfl))))⟩

end Scribbler

namespace Popup

/-! ## C8: stroke routing -/

theorem alGet_alSet_self {β : Type} (m : List (String × β)) (k : String) (v : β) :
    alGet (alSet m k v) k = some v := by
  simp [alGet, alSet]

theorem startDrawing_eq_image (e : Env) (x y : ℚ) (s : PState) (id : String)
    (htool : s.activeTool = "brush") (himg : s.currentImage = some id) :
    startDrawing e x y s = { s with
      drawing := true
      points := [Pt.mk (x - e.imgLeft id) (y - e.imgTop id)]
      ksm := ksmSaveState s.base s.ksm } := by
  unfold startDrawing
  rw [if_neg (by simp [htool])]
  simp only [himg]

theorem startDrawing_eq_base (e : Env) (x y : ℚ) (s : PState)
    (htool : s.activeTool = "brush") (hnone : s.currentImage = none) :
    startDrawing e x y s = { s with
      drawing := true
      points := [Pt.mk x y]
      ksm := ksmSaveState s.base s.ksm } := by
  unfold startDrawing
  rw [if_neg (by simp [htool])]
  simp only [hnone]


/-- One `draw` sample while an image with an overlay canvas is selected:
the point lands (adjusted) on the path, the full path is inked onto the
overlay canvas, and nothing else changes. -/
theorem draw_image_step (e : Env) (id : String) (m : Pt) (s : PState)
    (himg : s.currentImage = some id) (htool : s.activeTool = "brush")
    (hdraw : s.drawing = true) (ov : OverlayCanvas)
    (hov : alGet s.imageCanvases id = some ov) (hpts : s.points ≠ []) :
    ∃ ov2 : OverlayCanvas,
      draw e m.x m.y s = { s with
          points := s.points ++ [adjPt e id m]
          imageCanvases := alSet s.imageCanvases id ov2 }
      ∧ ov2.content.getLast? = some (s.points ++ [adjPt e id m]) := by
  have hlen : 2 ≤ (s.points ++ [Pt.mk (m.x - e.imgLeft id) (m.y - e.imgTop id)]).length := by
    have := List.length_pos.mpr hpts
    simp only [List.length_append, List.length_singleton]
    omega
  refine ⟨{ reinitOv e id s ov with
            content := (reinitOv e id s ov).content
              ++ [s.points ++ [adjPt e id m]] }, ?_, List.getLast?_concat _⟩
  unfold draw
  rw [if_neg (by simp [hdraw, htool])]
  simp only [himg, hov]
  rw [if_pos hlen]
  rfl

theorem drawMany_image (e : Env) (id : String) (ms : List Pt) :
    ∀ s : PState, s.currentImage = some id → s.activeTool = "brush" →
      s.drawing = true → (alGet s.imageCanvases id).isSome → s.points ≠ [] →
      ((ms.foldl (fun st mv => draw e mv.x mv.y st) s).base = s.base
       ∧ (ms.foldl (fun st mv => draw e mv.x mv.y st) s).currentImage = some id
       ∧ (ms.foldl (fun st mv => draw e mv.x mv.y st) s).activeTool = "brush"
       ∧ (ms.foldl (fun st mv => draw e mv.x mv.y st) s).drawing = true
       ∧ (ms.foldl (fun st mv => draw e mv.x mv.y st) s).imageDrawings = s.imageDrawings
       ∧ (ms.foldl (fun st mv => draw e mv.x mv.y st) s).store = s.store
       ∧ (ms.foldl (fun st mv => draw e mv.x mv.y st) s).activeTabId = s.activeTabId
       ∧ (alGet (ms.foldl (fun st mv => draw e mv.x mv.y st) s).imageCanvases id).isSome
       ∧ (ms.foldl (fun st mv => draw e mv.x mv.y st) s).points
           = s.points ++ ms.map (adjPt e id)
       ∧ (ms ≠ [] → ∃ ov,
            alGet (ms.foldl (fun st mv => draw e mv.x mv.y st) s).imageCanvases id
              = some ov
            ∧ ov.content.getLast? = some (s.points ++ ms.map (adjPt e id)))) := by
  induction ms with
  | nil =>
    intro s h1 h2 h3 h4 h5
    refine ⟨rfl, h1, h2, h3, rfl, rfl, rfl, h4, by simp, by simp⟩
  | cons mv ms ih =>
    intro s h1 h2 h3 h4 h5
    obtain ⟨ov, hov⟩ := Option.isSome_iff_exists.mp h4
    obtain ⟨ov2, hstep, hlast⟩ := draw_image_step e id mv s h1 h2 h3 ov hov h5
    rw [List.foldl_cons, hstep]
    have h4' : (alGet (alSet s.imageCanvases id ov2) id).isSome := by
      rw [alGet_alSet_self]; rfl
    have h5' : s.points ++ [adjPt e id mv] ≠ [] := by simp
    obtain ⟨hb, hc, ht, hd, himd, hst, hta, hcv, hp, hlastm⟩ :=
      ih ({ s with
            points := s.points ++ [adjPt e id mv]
            imageCanvases := alSet s.imageCanvases id ov2 }) h1 h2 h3 h4' h5'
    refine ⟨hb, hc, ht, hd, himd, hst, hta, hcv, ?_, ?_⟩
    · rw [hp]
      simp [List.append_assoc]
    · intro _
      by_cases hms : ms = []
      · subst hms
        refine ⟨ov2, ?_, ?_⟩
        · show alGet (alSet s.imageCanvases id ov2) id = some ov2
          exact alGet_alSet_self _ _ _
        · rw [hlast]
          simp
      · obtain ⟨ov', hov', hlast'⟩ := hlastm hms
        refine ⟨ov', hov', ?_⟩
        rw [hlast']
        simp [List.append_assoc]

theorem stopDrawing_image (s : PState) (id : String)
    (hdraw : s.drawing = true) (himg : s.currentImage = some id)
    (ov : OverlayCanvas) (hov : alGet s.imageCanvases id = some ov) :
    stopDrawing s = { s with
      drawing := false
      points := []
      imageDrawings := alSet s.imageDrawings id (some ov.content)
      store := s.store.setKey ("imagesState_" ++ s.activeTabId)
        (.imagesV (alSet s.imageDrawings id (some ov.content))) } := by
  unfold stopDrawing
  rw [if_neg (by simp [hdraw])]
  simp only [himg, hov]

theorem stopDrawing_base (s : PState)
    (hdraw : s.drawing = true) (himg : s.currentImage = none) :
    stopDrawing s = { s with
      drawing := false
      points := []
      store := s.store.setKey ("canvasState_" ++ s.activeTabId)
        (.rasterV s.base) } := by
  unfold stopDrawing
  rw [if_neg (by simp [hdraw])]
  simp only [himg]

theorem draw_base_step (e : Env) (m : Pt) (s : PState)
    (hnone : s.currentImage = none) (htool : s.activeTool = "brush")
    (hdraw : s.drawing = true) (hpts : s.points ≠ []) :
    draw e m.x m.y s = { s with
      points := s.points ++ [m]
      base := s.base ++ [s.points ++ [m]] } := by
  have hlen : 2 ≤ (s.points ++ [Pt.mk m.x m.y]).length := by
    have := List.length_pos.mpr hpts
    simp only [List.length_append, List.length_singleton]
    omega
  unfold draw
  rw [if_neg (by simp [hdraw, htool])]
  simp only [hnone]
  rw [if_pos hlen]

theorem drawMany_base (e : Env) (ms : List Pt) :
    ∀ s : PState, s.currentImage = none → s.activeTool = "brush" →
      s.drawing = true → s.points ≠ [] →
      ((ms.foldl (fun st mv => draw e mv.x mv.y st) s).currentImage = none
       ∧ (ms.foldl (fun st mv => draw e mv.x mv.y st) s).activeTool = "brush"
       ∧ (ms.foldl (fun st mv => draw e mv.x mv.y st) s).drawing = true
       ∧ (ms.foldl (fun st mv => draw e mv.x mv.y st) s).imageCanvases = s.imageCanvases
       ∧ (ms.foldl (fun st mv => draw e mv.x mv.y st) s).imageDrawings = s.imageDrawings
       ∧ (ms.foldl (fun st mv => draw e mv.x mv.y st) s).store = s.store
       ∧ (ms.foldl (fun st mv => draw e mv.x mv.y st) s).activeTabId = s.activeTabId
       ∧ (ms.foldl (fun st mv => draw e mv.x mv.y st) s).points = s.points ++ ms
       ∧ (∃ added, (ms.foldl (fun st mv => draw e mv.x mv.y st) s).base = s.base ++ added
           ∧ (ms ≠ [] → added.getLast? = some (s.points ++ ms)))) := by
  induction ms with
  | nil =>
    intro s h1 h2 h3 h4
    exact ⟨h1, h2, h3, rfl, rfl, rfl, rfl, by simp, [], by simp, by simp⟩
  | cons mv ms ih =>
    intro s h1 h2 h3 h4
    rw [List.foldl_cons, draw_base_step e mv s h1 h2 h3 h4]
    by_cases hms : ms = []
    · subst hms
      exact ⟨h1, h2, h3, rfl, rfl, rfl, rfl, by simp, [s.points ++ [mv]], rfl, by simp⟩
    · obtain ⟨hc, ht, hd, hcv, himd, hst, hta, hp, added1, hbase, hlast⟩ :=
        ih ({ s with
              points := s.points ++ [mv]
              base := s.base ++ [s.points ++ [mv]] }) h1 h2 h3 (by simp)
      refine ⟨hc, ht, hd, hcv, himd, hst, hta, ?_, (s.points ++ [mv]) :: added1, ?_, ?_⟩
      · rw [hp]; simp
      · rw [hbase]; simp
      · intro _
        have hlast1 := hlast hms
        have hne : added1 ≠ [] := by
          intro hnil; rw [hnil] at hlast1; simp at hlast1
        obtain ⟨c, rest, rfl⟩ := List.exists_cons_of_ne_nil hne
        rw [List.getLast?_cons_cons, hlast1]
        simp

/-- C8. For every completed stroke gesture (pointer-down, moves, pointer-up)
performed with the brush tool: when an image layer is selected (and has its
overlay canvas, which `createImageElement` establishes for every image), the
stroke is committed to that layer's overlay raster — the overlay's drawing
record equals the overlay canvas content, which (for a non-empty stroke) ends
with the full accumulated path in image-local coordinates — it is persisted
under the `imagesState_` key, the base canvas raster is unchanged and no other
store key is written; when no image layer is selected, the stroke lands on the
shared base canvas, which is persisted under the `canvasState_` key, and the
per-image canvases, drawing records and all other store keys are untouched. -/
theorem c8_stroke_routing (e : Env) (p : Pt) (ms : List Pt) (s : PState)
    (htool : s.activeTool = "brush") :
    (∀ id, s.currentImage = some id → (alGet s.imageCanvases id).isSome →
      ((strokeSession e p ms s).base = s.base
       ∧ (∀ k, k ≠ "imagesState_" ++ s.activeTabId →
           (strokeSession e p ms s).store k = s.store k)
       ∧ (∃ ov, alGet (strokeSession e p ms s).imageCanvases id = some ov
           ∧ alGet (strokeSession e p ms s).imageDrawings id = some (some ov.content)
           ∧ (strokeSession e p ms s).store ("imagesState_" ++ s.activeTabId)
               = some (.imagesV (strokeSession e p ms s).imageDrawings)
           ∧ (ms ≠ [] → ov.content.getLast?
               = some (adjPt e id p :: ms.map (adjPt e id))))))
    ∧ (s.currentImage = none →
       ((strokeSession e p ms s).imageCanvases = s.imageCanvases
        ∧ (strokeSession e p ms s).imageDrawings = s.imageDrawings
        ∧ (∀ k, k ≠ "canvasState_" ++ s.activeTabId →
            (strokeSession e p ms s).store k = s.store k)
        ∧ (strokeSession e p ms s).store ("canvasState_" ++ s.activeTabId)
            = some (.rasterV (strokeSession e p ms s).base)
        ∧ (∃ added, (strokeSession e p ms s).base = s.base ++ added
            ∧ (ms ≠ [] → added.getLast? = some (p :: ms))))) := by
  constructor
  · intro id himg hcv
    unfold strokeSession
    rw [startDrawing_eq_image e p.x p.y s id htool himg]
    obtain ⟨hb, hc, ht, hd, himd, hst, hta, hcv2, hp2, hlastm⟩ :=
      drawMany_image e id ms
        ({ s with
            drawing := true
            points := [Pt.mk (p.x - e.imgLeft id) (p.y - e.imgTop id)]
            ksm := ksmSaveState s.base s.ksm }) himg htool rfl hcv (by simp)
    obtain ⟨ov, hov⟩ := Option.isSome_iff_exists.mp hcv2
    rw [stopDrawing_image _ id hd hc ov hov]
    refine ⟨hb, ?_, ov, hov, alGet_alSet_self _ _ _, ?_, ?_⟩
    · intro k hk
      show ((ms.foldl (fun st mv => draw e mv.x mv.y st) _).store.setKey _ _) k
        = s.store k
      rw [hta, hst]
      show (if k = "imagesState_" ++ s.activeTabId then _ else s.store k) = s.store k
      rw [if_neg hk]
    · show ((ms.foldl (fun st mv => draw e mv.x mv.y st) _).store.setKey _ _) _
        = some (.imagesV _)
      rw [hta]
      show (if ("imagesState_" ++ s.activeTabId) = ("imagesState_" ++ s.activeTabId)
            then some (PVal.imagesV _) else _) = _
      rw [if_pos rfl]
    · intro hms
      obtain ⟨ov1, hov1, hlast1⟩ := hlastm hms
      rw [hov] at hov1
      injection hov1 with hov1
      rw [hov1, hlast1]
      simp [adjPt]
  · intro hnone
    unfold strokeSession
    rw [startDrawing_eq_base e p.x p.y s htool hnone]
    obtain ⟨hc, ht, hd, hcv, himd, hst, hta, hp, added, hbase, hlast⟩ :=
      drawMany_base e ms
        ({ s with
            drawing := true
            points := [Pt.mk p.x p.y]
            ksm := ksmSaveState s.base s.ksm }) hnone htool rfl (by simp)
    rw [stopDrawing_base _ hd hc]
    refine ⟨hcv, himd, ?_, ?_, added, hbase, ?_⟩
    · intro k hk
      show ((ms.foldl (fun st mv => draw e mv.x mv.y st) _).store.setKey _ _) k
        = s.store k
      rw [hta, hst]
      show (if k = "canvasState_" ++ s.activeTabId then _ else s.store k) = s.store k
      rw [if_neg hk]
    · show ((ms.foldl (fun st mv => draw e mv.x mv.y st) _).store.setKey _ _) _
        = some (.rasterV _)
      rw [hta]
      show (if ("canvasState_" ++ s.activeTabId) = ("canvasState_" ++ s.activeTabId)
            then some (PVal.rasterV _) else _) = _
      rw [if_pos rfl]
    · intro hms
      rw [hlast hms]
      simp

/-- Witness for C8: a two-sample stroke while image `img1` is selected leaves
the base canvas raster untouched. -/
theorem c8_witness :
    (strokeSession
      (Env.mk (fun _ => 10) (fun _ => 10) (fun _ => 100) (fun _ => 100))
      (Pt.mk 30 30) [Pt.mk 40 40]
      (PState.mk "brush" false [] [] (some "img1")
        [("img1", OverlayCanvas.mk 100 [])] [("img1", none)]
        (KSM.mk [] []) "tab-1" PStore.empty)).base
    = (PState.mk "brush" false [] [] (some "img1")
        [("img1", OverlayCanvas.mk 100 [])] [("img1", none)]
        (KSM.mk [] []) "tab-1" PStore.empty).base :=
  ((c8_stroke_routing
      (Env.mk (fun _ => 10) (fun _ => 10) (fun _ => 100) (fun _ => 100))
      (Pt.mk 30 30) [Pt.mk 40 40]
      (PState.mk "brush" false [] [] (some "img1")
        [("img1", OverlayCanvas.mk 100 [])] [("img1", none)]
        (KSM.mk [] []) "tab-1" PStore.empty) rfl).1
    "img1" rfl (by decide)).1

end Popup
